/-
Verification of the resumable bounded-concurrency research-task orchestrator
(`scripts/scrape_rom_sources.py`) against its natural-language specification.

The script is shallowly embedded: the filesystem is an association list from
file names to parsed file contents, the external worker process is an opaque
outcome value, and each Python function is translated to a Lean function over
that state.
-/
import Mathlib

namespace RomSources

/-! ## Data model

A CSV file as seen through Python's `csv.DictReader` / `csv.DictWriter`:
a list of field names and a list of rows, each row a dictionary from field
name to value (modelled as an association list).  A file whose parse raises
an exception is `corrupt`. -/

/-- A `csv.DictReader` row: a dictionary from field name to value. -/
abbrev Row := List (String × String)

/-- Parsed content of a file in the artifact store: either a CSV record set
(field names plus data rows) or content whose parse raises. -/
inductive Content where
  | csv (fieldnames : List String) (rows : List Row)
  | corrupt
deriving DecidableEq, Repr

/-- The artifact store: an association list from file name to content.
Mirrors the `rom_sources/` output directory. -/
abbrev FS := List (String × Content)

/-- Look a file up in the store by name. -/
def FS.read (fs : FS) (k : String) : Option Content := List.lookup k fs

/-- Whether a file exists in the store (`Path.exists`). -/
def FS.fileExists (fs : FS) (k : String) : Bool := (fs.read k).isSome

/-- Write (create or overwrite) a file (`open(..., 'w')`). -/
def FS.write (fs : FS) (k : String) (c : Content) : FS :=
  (k, c) :: fs.filter (fun e => e.1 != k)

/-- Remove a file if present (`Path.unlink(missing_ok=True)`). -/
def FS.remove (fs : FS) (k : String) : FS :=
  fs.filter (fun e => e.1 != k)

/-- `src.rename(dst)`: move the content at `src` to `dst`, overwriting `dst`.
A no-op when `src` is absent (the code only renames an existing temp file). -/
def FS.rename (fs : FS) (src dst : String) : FS :=
  match fs.read src with
  | some c => (fs.remove src).write dst c
  | none => fs

/-! ## Schema (`CSV_HEADER`) -/

/-- `CSV_HEADER` from the script, already split on `','`: the canonical,
ordered schema of every artifact. -/
def csvFields : List String :=
  ["platform", "source_name", "url", "content_type", "set_format",
   "download_method", "size", "requires_login", "requires_bios",
   "bios_included", "bios_source", "recommended", "notes"]

/-- Name of the combined output file (`COMBINED_CSV`). -/
def combinedName : String := "all_rom_sources.csv"

/-! ## `platform_to_filename` -/

/-- A character in the class `[a-z0-9]` of the regex in
`platform_to_filename`. -/
def goodChar (c : Char) : Bool :=
  (97 ≤ c.toNat && c.toNat ≤ 122) || (48 ≤ c.toNat && c.toNat ≤ 57)

/-- One pass of `re.sub(r'[bad]+', sep, s)`: every maximal run of characters
failing `good` is replaced by the single character `sep`.  The boolean flag
records whether the previous character was part of a bad run. -/
def collapseAux (good : Char → Bool) (sep : Char) : Bool → List Char → List Char
  | _, [] => []
  | prevBad, c :: cs =>
    if good c then c :: collapseAux good sep false cs
    else if prevBad then collapseAux good sep true cs
    else sep :: collapseAux good sep true cs

/-- `re.sub` of maximal bad runs by a single separator. -/
def collapseRuns (good : Char → Bool) (sep : Char) (l : List Char) : List Char :=
  collapseAux good sep false l

/-- `str.strip(c)`: drop leading and trailing occurrences of `c`. -/
def stripChar (c : Char) (l : List Char) : List Char :=
  ((l.dropWhile (· == c)).reverse.dropWhile (· == c)).reverse

/-- The slug part of `platform_to_filename`: lowercase, collapse runs of
non-`[a-z0-9]` to `'_'`, collapse runs of `'_'`, strip `'_'`. -/
def slugChars (platform : String) : List Char :=
  stripChar '_'
    (collapseRuns (fun c => c != '_') '_'
      (collapseRuns goodChar '_' (platform.data.map Char.toLower)))

/-- `platform_to_filename`: safe file name for a platform's artifact. -/
def platform_to_filename (platform : String) : String :=
  String.mk (slugChars platform) ++ ".csv"

/-- The temp path used by `process_platform`:
`OUTPUT_DIR / f".{filename}.tmp"`. -/
def tmpName (platform : String) : String :=
  "." ++ platform_to_filename platform ++ ".tmp"

/-! ## Completion oracle (`is_done`) -/

/-- `is_done`: a platform is done when a file exists at its filename key. -/
def is_done (platform : String) (fs : FS) : Bool :=
  fs.fileExists (platform_to_filename platform)

/-! ## Validation (`process_platform`, lines 214-230) -/

/-- The validation gate of `process_platform`: the temp file must parse, its
field-name set must contain every required column, and it must have at least
one data row. -/
def validCSV : Content → Bool
  | .csv fns rows => csvFields.all (fun f => fns.contains f) && !rows.isEmpty
  | .corrupt => false

/-! ## Worker executor (`process_platform`) -/

/-- What the opaque external worker process does to the temp path it is told
to write: it times out (possibly after a partial write), exits with some code
having written the temp file or not, or the call raises some other exception
(again possibly after a partial write). -/
inductive WorkerOutcome where
  | timeout (partialWrite : Option Content)
  | completed (exitCode : Int) (written : Option Content)
  | raised (partialWrite : Option Content)
deriving DecidableEq, Repr

/-- The message component of `process_platform`'s result. -/
inductive Msg where
  | wouldProcess
  | noOutputFile
  | missingColumns
  | noDataRows
  | invalidCSV
  | created (nrows : Nat)
  | timedOut
  | otherError
deriving DecidableEq, Repr

/-- Result of one `process_platform` call: the reported outcome, the final
filesystem, the sequence of filesystem states the call passed through, how
many external processes it spawned, and whether it killed the process. -/
structure ExecResult where
  success : Bool
  msg : Msg
  fs : FS
  trace : List FS
  spawned : Nat
  killed : Bool
deriving Repr

/-- Write the worker's output to the temp path when it produced one. -/
def workerWrite (fs : FS) (tmp : String) : Option Content → FS
  | some c => fs.write tmp c
  | none => fs

/-- `process_platform platform dry_run`, with the external process abstracted
as a `WorkerOutcome`.  Follows the Python control flow: delete any leftover
temp file, spawn, then branch on timeout / missing output / validation /
rename. -/
def process_platform (platform : String) (w : WorkerOutcome) (dryRun : Bool)
    (fs : FS) : ExecResult :=
  let tmp := tmpName platform
  let out := platform_to_filename platform
  if dryRun then
    ⟨true, .wouldProcess, fs, [fs], 0, false⟩
  else
    let fs1 := fs.remove tmp
    match w with
    | .timeout pw =>
      let fs2 := workerWrite fs1 tmp pw
      let fs3 := fs2.remove tmp
      ⟨false, .timedOut, fs3, [fs, fs1, fs2, fs3], 1, true⟩
    | .raised pw =>
      let fs2 := workerWrite fs1 tmp pw
      let fs3 := fs2.remove tmp
      ⟨false, .otherError, fs3, [fs, fs1, fs2, fs3], 1, false⟩
    | .completed _ none =>
      ⟨false, .noOutputFile, fs1, [fs, fs1], 1, false⟩
    | .completed _ (some c) =>
      let fs2 := fs1.write tmp c
      match c with
      | .corrupt =>
        let fs3 := fs2.remove tmp
        ⟨false, .invalidCSV, fs3, [fs, fs1, fs2, fs3], 1, false⟩
      | .csv fns rows =>
        if !csvFields.all (fun f => fns.contains f) then
          let fs3 := fs2.remove tmp
          ⟨false, .missingColumns, fs3, [fs, fs1, fs2, fs3], 1, false⟩
        else if rows.isEmpty then
          let fs3 := fs2.remove tmp
          ⟨false, .noDataRows, fs3, [fs, fs1, fs2, fs3], 1, false⟩
        else
          let fs3 := fs2.rename tmp out
          ⟨true, .created rows.length, fs3, [fs, fs1, fs2, fs3], 1, false⟩

/-! ## Aggregator (`combine_all_csvs`) -/

/-- String suffix test over the underlying character lists. -/
def strEndsWith (s t : String) : Bool := t.data.isSuffixOf s.data

/-- String head test over the underlying character lists. -/
def strStartsWith (s t : String) : Bool := t.data.isPrefixOf s.data

/-- Whether `OUTPUT_DIR.glob("*.csv")` lists a file: the name ends in `.csv`
and is not hidden (glob patterns not starting with a dot never match names
starting with a dot, so `.{name}.csv.tmp` temp files are excluded twice
over). -/
def globCsv (name : String) : Bool :=
  strEndsWith name ".csv" && !strStartsWith name "."

/-- Executable lexicographic comparison of character lists by code point,
modelling Python's string ordering for `sorted(...)` and SQL `ORDER BY`. -/
def lexLe : List Char → List Char → Bool
  | [], _ => true
  | _ :: _, [] => false
  | a :: as, b :: bs =>
    if a.toNat < b.toNat then true
    else if b.toNat < a.toNat then false
    else lexLe as bs

/-- The ordering used to model `sorted(...)` over file names. -/
def nameLe (a b : String × Content) : Prop := lexLe a.1.data b.1.data = true

instance : DecidableRel nameLe := fun a b =>
  instDecidableEqBool (lexLe a.1.data b.1.data) true

theorem lexLe_total (a : List Char) : ∀ b, lexLe a b = true ∨ lexLe b a = true := by
  induction a with
  | nil => intro b; left; rfl
  | cons x xs ih =>
    intro b
    cases b with
    | nil => right; rfl
    | cons y ys =>
      by_cases h1 : x.toNat < y.toNat
      · left
        simp [lexLe, h1]
      · by_cases h2 : y.toNat < x.toNat
        · right
          simp [lexLe, h2]
        · rcases ih ys with h | h
          · left
            simp [lexLe, h1, h2, h]
          · right
            simp [lexLe, h1, h2, h]

theorem lexLe_trans (a : List Char) :
    ∀ b c, lexLe a b = true → lexLe b c = true → lexLe a c = true := by
  induction a with
  | nil => intro b c _ _; rfl
  | cons x xs ih =>
    intro b c hab hbc
    cases b with
    | nil => simp [lexLe] at hab
    | cons y ys =>
      cases c with
      | nil => simp [lexLe] at hbc
      | cons z zs =>
        simp only [lexLe] at hab hbc ⊢
        by_cases h1 : x.toNat < y.toNat
        · by_cases h2 : y.toNat < z.toNat
          · simp [show x.toNat < z.toNat by omega]
          · simp only [if_neg h2] at hbc
            by_cases h3 : z.toNat < y.toNat
            · simp [h3] at hbc
            · simp [show x.toNat < z.toNat by omega]
        · simp only [if_neg h1] at hab
          by_cases h4 : y.toNat < x.toNat
          · simp [h4] at hab
          · simp only [if_neg h4] at hab
            by_cases h2 : y.toNat < z.toNat
            · simp [show x.toNat < z.toNat by omega]
            · simp only [if_neg h2] at hbc
              by_cases h3 : z.toNat < y.toNat
              · simp [h3] at hbc
              · simp only [if_neg h3] at hbc
                have hxz : ¬ x.toNat < z.toNat := by omega
                have hzx : ¬ z.toNat < x.toNat := by omega
                simp only [if_neg hxz, if_neg hzx]
                exact ih ys zs hab hbc

instance : IsTotal (String × Content) nameLe :=
  ⟨fun a b => lexLe_total a.1.data b.1.data⟩

instance : IsTrans (String × Content) nameLe :=
  ⟨fun a b c => lexLe_trans a.1.data b.1.data c.1.data⟩

/-- `sorted(OUTPUT_DIR.glob("*.csv"))`: the store's files matching the glob,
in name order. -/
def csvFiles (fs : FS) : List (String × Content) :=
  List.insertionSort nameLe (fs.filter (fun e => globCsv e.1))

/-- Reading one scanned file in the aggregation loop: the combined output
file is skipped, a file whose parse raises contributes a warning, and a
readable file contributes its `DictReader` rows. -/
def fileRows : String × Content → List Row × Nat
  | (name, c) =>
    if name = combinedName then ([], 0)
    else match c with
      | .csv _ rows => (rows, 0)
      | .corrupt => ([], 1)

/-- All rows collected by the aggregation loop, with the warning count. -/
def collectRows (files : List (String × Content)) : List Row × Nat :=
  files.foldr (fun f acc => ((fileRows f).1 ++ acc.1, (fileRows f).2 + acc.2))
    ([], 0)

/-- `clean_row = {k: row.get(k, '') for k in fieldnames}`: project a row onto
the canonical schema in canonical order, filling missing fields with `""` and
dropping unknown fields. -/
def cleanRow (row : Row) : Row :=
  csvFields.map (fun k => (k, (List.lookup k row).getD ""))

/-- A scanned file that triggers an aggregation warning: not the combined
output file, and its parse raises. -/
def corruptScanned : String × Content → Bool
  | (name, c) =>
    (name != combinedName) &&
      (match c with
       | .corrupt => true
       | .csv _ _ => false)

/-- `combine_all_csvs`: scan, collect, and, when any rows were found, rewrite
the combined output file.  Returns the new store, the number of rows written,
and the number of per-file warnings. -/
def combine_all_csvs (fs : FS) : FS × Nat × Nat :=
  let (allRows, warnings) := collectRows (csvFiles fs)
  if allRows.isEmpty then (fs, 0, warnings)
  else (fs.write combinedName (.csv csvFields (allRows.map cleanRow)),
        allRows.length, warnings)

/-! ## Task enumerator (`get_platforms`, `SKIP_PLATFORMS`) -/

/-- `SKIP_PLATFORMS`: modern / non-emulation platforms excluded
unconditionally. -/
def SKIP_PLATFORMS : List String :=
  ["Windows", "Linux", "Sony Playstation 5", "Microsoft Xbox Series X/S",
   "Android", "Apple iOS", "Apple Mac OS", "Web Browser"]

/-- The ordering of the SQL `ORDER BY p.name ASC` over catalog rows. -/
def rowLe (a b : String × Nat) : Prop := lexLe a.1.data b.1.data = true

instance : DecidableRel rowLe := fun a b =>
  instDecidableEqBool (lexLe a.1.data b.1.data) true

instance : IsTotal (String × Nat) rowLe :=
  ⟨fun a b => lexLe_total a.1.data b.1.data⟩

instance : IsTrans (String × Nat) rowLe :=
  ⟨fun a b c => lexLe_trans a.1.data b.1.data c.1.data⟩

/-- `get_platforms min_games`: the catalog query (platform name and game
count, ordered by name ascending) filtered to counts of at least
`min_games`. -/
def get_platforms (catalog : List (String × Nat)) (minGames : Nat) :
    List (String × Nat) :=
  (List.insertionSort rowLe catalog).filter (fun p => minGames ≤ p.2)

/-- The skip-set filter applied in `main`:
`platforms = [... if name not in SKIP_PLATFORMS]`. -/
def eligiblePlatforms (catalog : List (String × Nat)) (minGames : Nat) :
    List (String × Nat) :=
  (get_platforms catalog minGames).filter
    (fun p => !SKIP_PLATFORMS.contains p.1)

/-! ## Single-subject override (`main`, `--platform`) -/

/-- How `main` resolves an explicit `--platform` argument. -/
inductive OverrideOutcome where
  | normal (entry : String × Nat)
  | forced (entry : String × Nat)
  | notFound
deriving DecidableEq, Repr

/-- `main`'s `--platform` resolution: first look in the skip-filtered list,
then (printing a distinct note) in the unfiltered `get_platforms` result;
otherwise print "Platform not found" and `sys.exit(1)`. -/
def selectOverride (catalog : List (String × Nat)) (minGames : Nat)
    (target : String) : OverrideOutcome :=
  match (eligiblePlatforms catalog minGames).filter (fun p => p.1 = target) with
  | m :: _ => .normal m
  | [] =>
    match (get_platforms catalog minGames).filter (fun p => p.1 = target) with
    | m :: _ => .forced m
    | [] => .notFound

/-- The list of platform names `main` dispatches, as a function of the mode:
with `--platform` the single resolved name (no `is_done` check); otherwise
the eligible names whose artifact does not yet exist. -/
def remainingNames (catalog : List (String × Nat)) (minGames : Nat)
    (overrideTarget : Option String) (fs : FS) : Option (List String) :=
  match overrideTarget with
  | some t =>
    match selectOverride catalog minGames t with
    | .normal m => some [m.1]
    | .forced m => some [m.1]
    | .notFound => none
  | none =>
    some (((eligiblePlatforms catalog minGames).map Prod.fst).filter
      (fun n => !is_done n fs))

/-! ## A whole orchestrator run (normal mode) -/

/-- A deterministic behavior of the external worker: what it does when asked
about each platform. -/
abbrev WorkerBehavior := String → WorkerOutcome

/-- Whether a worker outcome passes the executor's validation gate (the
worker completed and wrote a valid record set). -/
def workerSucceeds : WorkerOutcome → Bool
  | .completed _ (some c) => validCSV c
  | _ => false

/-- Process a list of platforms sequentially, threading the store. -/
def processAll (w : WorkerBehavior) (names : List String) (fs : FS) : FS :=
  names.foldl (fun s p => (process_platform p (w p) false s).fs) fs

/-- One normal-mode orchestrator run: enumerate, drop done subjects, process
the rest, then combine. -/
def runOnce (w : WorkerBehavior) (catalog : List (String × Nat))
    (minGames : Nat) (fs : FS) : FS :=
  let names := ((eligiblePlatforms catalog minGames).map Prod.fst).filter
    (fun n => !is_done n fs)
  (combine_all_csvs (processAll w names fs)).1

/-! ## Scheduler / pool (`main`, parallel branch) -/

/-- State of the `ThreadPoolExecutor` refill loop: platforms not yet
submitted (in enumerator order), futures in flight, and the platforms
submitted so far in submission order. -/
structure PoolState where
  queue : List String
  inFlight : List String
  dispatched : List String
deriving DecidableEq, Repr

/-- The initial batch: submit the first `k` platforms. -/
def initPool (k : Nat) (names : List String) : PoolState :=
  ⟨names.drop k, names.take k, names.take k⟩

/-- One iteration of the `while pending:` loop: `wait(FIRST_COMPLETED)`
returns a nonempty set `done` of completed futures; each is popped and, if
platforms remain, the next one is submitted in its place. -/
def poolStep (s s' : PoolState) : Prop :=
  ∃ done remain : List String,
    done ≠ [] ∧ s.inFlight.Perm (done ++ remain) ∧
    s' = ⟨s.queue.drop done.length,
          remain ++ s.queue.take done.length,
          s.dispatched ++ s.queue.take done.length⟩

/-- The pool states reachable from the initial batch. -/
def poolReachable (k : Nat) (names : List String) (s : PoolState) : Prop :=
  Relation.ReflTransGen poolStep (initPool k names) s

/-! ## Concrete sample data used by witnesses -/

/-- A sample data row produced by a well-behaved worker. -/
def sampleRow : Row :=
  [("platform", "Sega Genesis"), ("source_name", "Myrient"),
   ("url", "u"), ("content_type", "full_set"), ("set_format", "No-Intro"),
   ("download_method", "direct"), ("size", "1 GB"), ("requires_login", "no"),
   ("requires_bios", "no"), ("bios_included", ""), ("bios_source", ""),
   ("recommended", "yes"), ("notes", "")]

/-- A sample valid artifact: full schema, one data row. -/
def sampleValid : Content := .csv csvFields [sampleRow]

/-- A sample artifact with two data rows. -/
def sampleValid2 : Content := .csv csvFields [sampleRow, sampleRow]

/-- A sample invalid artifact: header only, zero data rows. -/
def sampleHeaderOnly : Content := .csv csvFields []

/-! ## Basic store lemmas -/

theorem lookup_filter_ne_self (fs : FS) (k : String) :
    List.lookup k (fs.filter (fun e => e.1 != k)) = none := by
  induction fs with
  | nil => rfl
  | cons e fs ih =>
    by_cases h : e.1 = k
    · have hb : (e.1 != k) = false := by simp [h]
      simp [List.filter_cons, hb, ih]
    · have hb : (e.1 != k) = true := by simp [h]
      have hk : (k == e.1) = false := by simp [Ne.symm h]
      simp [List.filter_cons, hb, List.lookup, hk, ih]

theorem lookup_filter_ne_of_ne (fs : FS) (k k' : String) (h : k' ≠ k) :
    List.lookup k' (fs.filter (fun e => e.1 != k)) = List.lookup k' fs := by
  induction fs with
  | nil => rfl
  | cons e fs ih =>
    by_cases he : e.1 = k
    · have hb : (e.1 != k) = false := by simp [he]
      have hk : (k' == e.1) = false := by simp [he, h]
      simp [List.filter_cons, hb, List.lookup, hk, ih]
    · have hb : (e.1 != k) = true := by simp [he]
      by_cases hk : k' = e.1
      · simp [List.filter_cons, hb, List.lookup, hk]
      · have hk2 : (k' == e.1) = false := by simp [hk]
        simp [List.filter_cons, hb, List.lookup, hk2, ih]

theorem read_write_self (fs : FS) (k : String) (c : Content) :
    (fs.write k c).read k = some c := by
  simp [FS.write, FS.read, List.lookup]

theorem read_write_ne (fs : FS) (k k' : String) (c : Content) (h : k' ≠ k) :
    (fs.write k c).read k' = fs.read k' := by
  have hk : (k' == k) = false := by simp [h]
  simp only [FS.write, FS.read, List.lookup, hk,
    lookup_filter_ne_of_ne fs k k' h]

theorem read_remove_self (fs : FS) (k : String) :
    (fs.remove k).read k = none :=
  lookup_filter_ne_self fs k

theorem read_remove_ne (fs : FS) (k k' : String) (h : k' ≠ k) :
    (fs.remove k).read k' = fs.read k' :=
  lookup_filter_ne_of_ne fs k k' h

theorem read_workerWrite_ne (fs : FS) (tmp k : String) (pw : Option Content)
    (h : k ≠ tmp) : (workerWrite fs tmp pw).read k = fs.read k := by
  cases pw with
  | none => rfl
  | some c => exact read_write_ne fs tmp k c h

theorem validCSV_csv_iff (fns : List String) (rows : List Row) :
    validCSV (.csv fns rows) = true ↔
      (∀ x ∈ csvFields, x ∈ fns) ∧ rows ≠ [] := by
  simp [validCSV, List.all_eq_true]

/-! ## File-name lemmas: the final artifact name and the temp name differ -/

theorem data_platform_to_filename (p : String) :
    (platform_to_filename p).data = slugChars p ++ ['.', 'c', 's', 'v'] := rfl

theorem data_tmpName (p : String) :
    (tmpName p).data =
      '.' :: ((slugChars p ++ ['.', 'c', 's', 'v']) ++ ['.', 't', 'm', 'p']) := rfl

/-- A platform's final artifact name is never any platform's temp name
(the former ends in `"csv"`, the latter in `"tmp"`). -/
theorem filename_ne_tmpName (p q : String) :
    platform_to_filename p ≠ tmpName q := by
  intro h
  have h2 := congrArg (fun s => s.data.reverse.head?) h
  simp only [data_platform_to_filename, data_tmpName, List.reverse_cons,
    List.reverse_append, List.head?_append] at h2
  simp at h2

/-- Temp names are invisible to the aggregator's glob (they start with a dot
and end in `.tmp`). -/
theorem globCsv_tmpName (p : String) : globCsv (tmpName p) = false := by
  have h : strStartsWith (tmpName p) "." = true := by
    simp [strStartsWith, data_tmpName, List.isPrefixOf]
  simp [globCsv, h]

/-! ## Slug lemmas -/

theorem toLower_of_good (c : Char) (h : goodChar c = true) : c.toLower = c := by
  simp only [goodChar, Bool.or_eq_true, Bool.and_eq_true, decide_eq_true_eq]
    at h
  unfold Char.toLower
  rw [if_neg]
  omega

theorem collapseAux_of_good (good : Char → Bool) (sep : Char)
    (l : List Char) (h : ∀ c ∈ l, good c = true) (b : Bool) :
    collapseAux good sep b l = l := by
  induction l generalizing b with
  | nil => rfl
  | cons c cs ih =>
    have hc : good c = true := h c (List.mem_cons_self c cs)
    simp [collapseAux, hc,
      ih (fun d hd => h d (List.mem_cons_of_mem c hd)) false]

theorem goodChar_ne_underscore (c : Char) (h : goodChar c = true) :
    c ≠ '_' := by
  intro he
  subst he
  exact absurd h (by decide)

theorem dropWhile_beq_of_not (c : Char) (l : List Char)
    (h : ∀ d ∈ l, (d == c) = false) : l.dropWhile (· == c) = l := by
  cases l with
  | nil => rfl
  | cons d ds => simp [List.dropWhile, h d (List.mem_cons_self d ds)]

theorem stripChar_of_not (c : Char) (l : List Char)
    (h : ∀ d ∈ l, (d == c) = false) : stripChar c l = l := by
  unfold stripChar
  rw [dropWhile_beq_of_not c l h,
    dropWhile_beq_of_not c l.reverse (fun d hd => h d (List.mem_reverse.mp hd)),
    List.reverse_reverse]

theorem slugChars_of_good (s : String)
    (hs : ∀ c ∈ s.data, goodChar c = true) : slugChars s = s.data := by
  have hmap : s.data.map Char.toLower = s.data := by
    conv_rhs => rw [← List.map_id s.data]
    exact List.map_congr_left (fun c hc => toLower_of_good c (hs c hc))
  unfold slugChars collapseRuns
  rw [hmap, collapseAux_of_good goodChar '_' s.data hs false,
    collapseAux_of_good _ '_' s.data
      (fun c hc => by simp [goodChar_ne_underscore c (hs c hc)]) false,
    stripChar_of_not '_' s.data
      (fun c hc => by simp [goodChar_ne_underscore c (hs c hc)])]

theorem platform_to_filename_of_good (s : String)
    (hs : ∀ c ∈ s.data, goodChar c = true) :
    platform_to_filename s = s ++ ".csv" := by
  unfold platform_to_filename
  rw [slugChars_of_good s hs]

/-! ## C9 -/

/-- C9 counterexample: the claim asserts the filename-key map is injective on
all pairs of distinct subject strings, but the distinct subjects `"A"` and
`"a"` map to the same artifact file name. -/
theorem C9_counterexample :
    platform_to_filename "A" = platform_to_filename "a" ∧
      ("A" : String) ≠ "a" := by
  constructor
  · rfl
  · decide

/-- C9 (amended): the filename-key map is not injective on arbitrary distinct
subject strings (case and punctuation variants collide); it is injective on
subjects that are already in slug form, i.e. consist only of characters from
`[a-z0-9]`. -/
theorem C9_amended_injective_on_slugs (s t : String)
    (hs : ∀ c ∈ s.data, goodChar c = true)
    (ht : ∀ c ∈ t.data, goodChar c = true)
    (h : platform_to_filename s = platform_to_filename t) : s = t := by
  rw [platform_to_filename_of_good s hs, platform_to_filename_of_good t ht]
    at h
  have hd : s.data ++ ".csv".data = t.data ++ ".csv".data :=
    String.ext_iff.mp h
  exact String.ext (List.append_cancel_right hd)

/-- C9 witness: the amended injectivity applied to concrete slug-form
subjects, with every hypothesis discharged by evaluation. -/
theorem C9_amended_witness : ("snes" : String) = "snes" :=
  C9_amended_injective_on_slugs "snes" "snes" (by decide) (by decide) rfl

/-! ## C1 -/

/-- C1: the worker executor writes only to the reserved temp path — derived
from the final artifact name by the dot/`.tmp` marker, never equal to the
final name, and invisible to the aggregator's glob — and across every
intermediate filesystem state of a call, the subject's canonical artifact
path holds either exactly its previous content or a fully validated artifact
committed by the single rename; so neither the completion oracle's existence
check nor the aggregator's scan can ever observe a partially written or
invalid file at a canonical path. -/
theorem C1_atomic_commit (p : String) (w : WorkerOutcome) (fs : FS) :
    tmpName p = "." ++ platform_to_filename p ++ ".tmp" ∧
    tmpName p ≠ platform_to_filename p ∧
    globCsv (tmpName p) = false ∧
    ∀ g ∈ (process_platform p w false fs).trace,
      g.read (platform_to_filename p) = fs.read (platform_to_filename p) ∨
      ∃ c, g.read (platform_to_filename p) = some c ∧ validCSV c = true := by
  have hne : platform_to_filename p ≠ tmpName p := filename_ne_tmpName p p
  refine ⟨rfl, Ne.symm hne, globCsv_tmpName p, ?_⟩
  intro g hg
  cases w with
  | timeout pw =>
    have ht : (process_platform p (.timeout pw) false fs).trace =
        [fs, fs.remove (tmpName p),
         workerWrite (fs.remove (tmpName p)) (tmpName p) pw,
         (workerWrite (fs.remove (tmpName p)) (tmpName p) pw).remove
           (tmpName p)] := rfl
    rw [ht] at hg
    simp only [List.mem_cons, List.not_mem_nil, or_false] at hg
    rcases hg with h | h | h | h <;> subst h <;> left
    · rfl
    · exact read_remove_ne _ _ _ hne
    · rw [read_workerWrite_ne _ _ _ _ hne, read_remove_ne _ _ _ hne]
    · rw [read_remove_ne _ _ _ hne, read_workerWrite_ne _ _ _ _ hne,
        read_remove_ne _ _ _ hne]
  | raised pw =>
    have ht : (process_platform p (.raised pw) false fs).trace =
        [fs, fs.remove (tmpName p),
         workerWrite (fs.remove (tmpName p)) (tmpName p) pw,
         (workerWrite (fs.remove (tmpName p)) (tmpName p) pw).remove
           (tmpName p)] := rfl
    rw [ht] at hg
    simp only [List.mem_cons, List.not_mem_nil, or_false] at hg
    rcases hg with h | h | h | h <;> subst h <;> left
    · rfl
    · exact read_remove_ne _ _ _ hne
    · rw [read_workerWrite_ne _ _ _ _ hne, read_remove_ne _ _ _ hne]
    · rw [read_remove_ne _ _ _ hne, read_workerWrite_ne _ _ _ _ hne,
        read_remove_ne _ _ _ hne]
  | completed ec written =>
    cases written with
    | none =>
      have ht : (process_platform p (.completed ec none) false fs).trace =
          [fs, fs.remove (tmpName p)] := rfl
      rw [ht] at hg
      simp only [List.mem_cons, List.not_mem_nil, or_false] at hg
      rcases hg with h | h <;> subst h <;> left
      · rfl
      · exact read_remove_ne _ _ _ hne
    | some c =>
      cases c with
      | corrupt =>
        have ht :
            (process_platform p (.completed ec (some .corrupt)) false fs).trace
              = [fs, fs.remove (tmpName p),
                 (fs.remove (tmpName p)).write (tmpName p) .corrupt,
                 ((fs.remove (tmpName p)).write (tmpName p) .corrupt).remove
                   (tmpName p)] := rfl
        rw [ht] at hg
        simp only [List.mem_cons, List.not_mem_nil, or_false] at hg
        rcases hg with h | h | h | h <;> subst h <;> left
        · rfl
        · exact read_remove_ne _ _ _ hne
        · rw [read_write_ne _ _ _ _ hne, read_remove_ne _ _ _ hne]
        · rw [read_remove_ne _ _ _ hne, read_write_ne _ _ _ _ hne,
            read_remove_ne _ _ _ hne]
      | csv fns rows =>
        set fs1 := fs.remove (tmpName p) with hfs1
        set fs2 := fs1.write (tmpName p) (.csv fns rows) with hfs2
        by_cases hall : ∀ x ∈ csvFields, x ∈ fns
        · by_cases hrows : rows = []
          · have hcond : ¬ ∃ x ∈ csvFields, x ∉ fns := by
              push_neg
              exact hall
            have ht :
                (process_platform p (.completed ec (some (.csv fns rows)))
                  false fs).trace =
                  [fs, fs1, fs2, fs2.remove (tmpName p)] := by
              simp [process_platform, hcond, hrows, hfs1, hfs2]
            rw [ht] at hg
            simp only [List.mem_cons, List.not_mem_nil, or_false] at hg
            rcases hg with h | h | h | h <;> subst h <;> left
            · rfl
            · exact read_remove_ne _ _ _ hne
            · rw [hfs2, read_write_ne _ _ _ _ hne, read_remove_ne _ _ _ hne]
            · rw [read_remove_ne _ _ _ hne, hfs2, read_write_ne _ _ _ _ hne,
                read_remove_ne _ _ _ hne]
          · have hren : fs2.rename (tmpName p) (platform_to_filename p) =
                (fs2.remove (tmpName p)).write (platform_to_filename p)
                  (.csv fns rows) := by
              rw [FS.rename, read_write_self]
            have hcond : ¬ ∃ x ∈ csvFields, x ∉ fns := by
              push_neg
              exact hall
            have ht :
                (process_platform p (.completed ec (some (.csv fns rows)))
                  false fs).trace =
                  [fs, fs1, fs2,
                   fs2.rename (tmpName p) (platform_to_filename p)] := by
              simp [process_platform, hcond, hrows, hfs1, hfs2]
            rw [ht] at hg
            simp only [List.mem_cons, List.not_mem_nil, or_false] at hg
            rcases hg with h | h | h | h <;> subst h
            · left; rfl
            · left; exact read_remove_ne _ _ _ hne
            · left
              rw [hfs2, read_write_ne _ _ _ _ hne, read_remove_ne _ _ _ hne]
            · right
              refine ⟨.csv fns rows, ?_, ?_⟩
              · rw [hren, read_write_self]
              · exact (validCSV_csv_iff fns rows).mpr ⟨hall, hrows⟩
        · have hcond : ∃ x ∈ csvFields, x ∉ fns := by
            push_neg at hall
            exact hall
          have ht :
              (process_platform p (.completed ec (some (.csv fns rows)))
                false fs).trace =
                [fs, fs1, fs2, fs2.remove (tmpName p)] := by
            simp [process_platform, hcond, hfs1, hfs2]
          rw [ht] at hg
          simp only [List.mem_cons, List.not_mem_nil, or_false] at hg
          rcases hg with h | h | h | h <;> subst h <;> left
          · rfl
          · exact read_remove_ne _ _ _ hne
          · rw [hfs2, read_write_ne _ _ _ _ hne, read_remove_ne _ _ _ hne]
          · rw [read_remove_ne _ _ _ hne, hfs2, read_write_ne _ _ _ _ hne,
              read_remove_ne _ _ _ hne]

/-- C1 witness: on a concrete successful call the final trace state is in
the trace and holds a validated artifact. -/
theorem C1_atomic_commit_witness :
    (process_platform "Sega Genesis" (.completed 0 (some sampleValid))
        false []).fs.read (platform_to_filename "Sega Genesis") =
      FS.read [] (platform_to_filename "Sega Genesis") ∨
    ∃ c,
      (process_platform "Sega Genesis" (.completed 0 (some sampleValid))
          false []).fs.read (platform_to_filename "Sega Genesis") = some c ∧
      validCSV c = true :=
  (C1_atomic_commit "Sega Genesis" (.completed 0 (some sampleValid)) []).2.2.2
    _ (by decide)

/-! ## Shared failure-path lemma -/

/-- On any failing `process_platform` call, the temp file is gone and the
canonical artifact path is untouched. -/
theorem proc_fail_effects (p : String) (w : WorkerOutcome) (fs : FS)
    (h : (process_platform p w false fs).success = false) :
    (process_platform p w false fs).fs.read (tmpName p) = none ∧
    (process_platform p w false fs).fs.read (platform_to_filename p) =
      fs.read (platform_to_filename p) := by
  have hne : platform_to_filename p ≠ tmpName p := filename_ne_tmpName p p
  cases w with
  | timeout pw =>
    refine ⟨read_remove_self _ _, ?_⟩
    show ((workerWrite (fs.remove (tmpName p)) (tmpName p) pw).remove
      (tmpName p)).read (platform_to_filename p) = _
    rw [read_remove_ne _ _ _ hne, read_workerWrite_ne _ _ _ _ hne,
      read_remove_ne _ _ _ hne]
  | raised pw =>
    refine ⟨read_remove_self _ _, ?_⟩
    show ((workerWrite (fs.remove (tmpName p)) (tmpName p) pw).remove
      (tmpName p)).read (platform_to_filename p) = _
    rw [read_remove_ne _ _ _ hne, read_workerWrite_ne _ _ _ _ hne,
      read_remove_ne _ _ _ hne]
  | completed ec written =>
    cases written with
    | none =>
      exact ⟨read_remove_self _ _, read_remove_ne _ _ _ hne⟩
    | some c =>
      cases c with
      | corrupt =>
        refine ⟨read_remove_self _ _, ?_⟩
        show (((fs.remove (tmpName p)).write (tmpName p) .corrupt).remove
          (tmpName p)).read (platform_to_filename p) = _
        rw [read_remove_ne _ _ _ hne, read_write_ne _ _ _ _ hne,
          read_remove_ne _ _ _ hne]
      | csv fns rows =>
        by_cases hall : ∀ x ∈ csvFields, x ∈ fns
        · have hcond : ¬ ∃ x ∈ csvFields, x ∉ fns := by
            push_neg
            exact hall
          by_cases hrows : rows = []
          · have hres : process_platform p (.completed ec
                (some (.csv fns rows))) false fs =
                ⟨false, .noDataRows,
                 ((fs.remove (tmpName p)).write (tmpName p)
                     (.csv fns rows)).remove (tmpName p),
                 [fs, fs.remove (tmpName p),
                  (fs.remove (tmpName p)).write (tmpName p) (.csv fns rows),
                  ((fs.remove (tmpName p)).write (tmpName p)
                      (.csv fns rows)).remove (tmpName p)], 1, false⟩ := by
              simp [process_platform, hcond, hrows]
            rw [hres]
            refine ⟨read_remove_self _ _, ?_⟩
            rw [read_remove_ne _ _ _ hne, read_write_ne _ _ _ _ hne,
              read_remove_ne _ _ _ hne]
          · exfalso
            have hs : (process_platform p (.completed ec
                (some (.csv fns rows))) false fs).success = true := by
              simp [process_platform, hcond, hrows]
            rw [h] at hs
            exact Bool.false_ne_true hs
        · have hcond : ∃ x ∈ csvFields, x ∉ fns := by
            push_neg at hall
            exact hall
          have hres : process_platform p (.completed ec
              (some (.csv fns rows))) false fs =
              ⟨false, .missingColumns,
               ((fs.remove (tmpName p)).write (tmpName p)
                   (.csv fns rows)).remove (tmpName p),
               [fs, fs.remove (tmpName p),
                (fs.remove (tmpName p)).write (tmpName p) (.csv fns rows),
                ((fs.remove (tmpName p)).write (tmpName p)
                    (.csv fns rows)).remove (tmpName p)], 1, false⟩ := by
            simp [process_platform, hcond]
          rw [hres]
          refine ⟨read_remove_self _ _, ?_⟩
          rw [read_remove_ne _ _ _ hne, read_write_ne _ _ _ _ hne,
            read_remove_ne _ _ _ hne]

/-! ## C2 -/

/-- C2: when the worker process runs to completion, the executor reports
success if and only if the output file it wrote exists, parses as a record
set whose field names include every required column, and has at least one
data row; the exit code plays no role in the decision; and on any failure
nothing is committed to the canonical artifact path. -/
theorem C2_success_iff_valid (p : String) (fs : FS) (ec : Int)
    (written : Option Content) :
    ((process_platform p (.completed ec written) false fs).success = true ↔
      ∃ c, written = some c ∧ validCSV c = true) ∧
    (∀ ec' : Int,
      (process_platform p (.completed ec' written) false fs).success =
        (process_platform p (.completed ec written) false fs).success) ∧
    ((process_platform p (.completed ec written) false fs).success = false →
      (process_platform p (.completed ec written) false fs).fs.read
          (platform_to_filename p) =
        fs.read (platform_to_filename p)) := by
  refine ⟨?_, ?_, fun h => (proc_fail_effects p _ fs h).2⟩
  · cases written with
    | none => simp [process_platform]
    | some c =>
      cases c with
      | corrupt => simp [process_platform, validCSV]
      | csv fns rows =>
        by_cases hall : ∀ x ∈ csvFields, x ∈ fns
        · have hcond : ¬ ∃ x ∈ csvFields, x ∉ fns := by
            push_neg
            exact hall
          by_cases hrows : rows = []
          · simp [process_platform, hcond, hrows, validCSV_csv_iff]
          · have hv : validCSV (.csv fns rows) = true :=
              (validCSV_csv_iff fns rows).mpr ⟨hall, hrows⟩
            simp [process_platform, hcond, hrows, hv]
        · have hcond : ∃ x ∈ csvFields, x ∉ fns := by
            push_neg at hall
            exact hall
          simp [process_platform, hcond, validCSV_csv_iff, hall]
  · intro ec2
    cases written with
    | none => rfl
    | some c =>
      cases c with
      | corrupt => rfl
      | csv fns rows => rfl

/-- C2 witness: a header-only output file (zero data rows) is reported as a
failure and nothing is committed, despite the worker exiting 0. -/
theorem C2_success_iff_valid_witness :
    (process_platform "Sega Genesis" (.completed 0 (some sampleHeaderOnly))
        false []).fs.read (platform_to_filename "Sega Genesis") =
      FS.read [] (platform_to_filename "Sega Genesis") :=
  (C2_success_iff_valid "Sega Genesis" [] 0 (some sampleHeaderOnly)).2.2
    (by decide)

/-! ## C4 -/

/-- C4: every failure path of the executor (timeout, no output produced,
validation failure, or any other per-task error) leaves no temp file behind,
leaves the subject's canonical artifact path exactly as it was, spawns
exactly one external process, and on timeout has forcibly terminated that
process; the subject therefore remains pending for the next run. -/
theorem C4_failure_no_side_effects (p : String) (w : WorkerOutcome) (fs : FS)
    (h : (process_platform p w false fs).success = false) :
    (process_platform p w false fs).fs.read (tmpName p) = none ∧
    (process_platform p w false fs).fs.read (platform_to_filename p) =
      fs.read (platform_to_filename p) ∧
    (process_platform p w false fs).spawned = 1 ∧
    (∀ pw, w = .timeout pw → (process_platform p w false fs).killed = true) := by
  refine ⟨(proc_fail_effects p w fs h).1, (proc_fail_effects p w fs h).2,
    ?_, ?_⟩
  · cases w with
    | timeout pw => rfl
    | raised pw => rfl
    | completed ec written =>
      cases written with
      | none => rfl
      | some c =>
        cases c with
        | corrupt => rfl
        | csv fns rows =>
          show (if _ then _ else if _ then _ else _ : ExecResult).spawned = 1
          split
          · rfl
          · split
            · rfl
            · rfl
  · intro pw hw
    cases w with
    | timeout pw2 => rfl
    | raised pw2 => cases hw
    | completed ec written => cases hw

/-- C4 witness: a concrete timed-out call leaves no temp file, no artifact,
one spawned process, and a killed worker. -/
theorem C4_failure_no_side_effects_witness :
    (process_platform "Sega Genesis" (.timeout (some sampleValid))
        false []).fs.read (tmpName "Sega Genesis") = none ∧
    (process_platform "Sega Genesis" (.timeout (some sampleValid))
        false []).fs.read (platform_to_filename "Sega Genesis") =
      FS.read [] (platform_to_filename "Sega Genesis") ∧
    (process_platform "Sega Genesis" (.timeout (some sampleValid))
        false []).spawned = 1 ∧
    (∀ pw, WorkerOutcome.timeout (some sampleValid) = .timeout pw →
      (process_platform "Sega Genesis" (.timeout (some sampleValid))
          false []).killed = true) :=
  C4_failure_no_side_effects "Sega Genesis" (.timeout (some sampleValid)) []
    (by decide)

/-- `l.contains x = false` says exactly that `x` is not a member. -/
theorem contains_false_iff (l : List String) (x : String) :
    (l.contains x = false) ↔ x ∉ l := by
  rw [← Bool.not_eq_true, List.contains, List.elem_iff]

/-! ## C6 -/

/-- C6: the enumerator produces exactly the catalog subjects whose weight
meets the min-weight threshold and that are not in the skip-set, in
ascending order by identifier; on the spec's scenario catalog
`[("A",5),("B",40),("C",2)]` with min-weight 10 the eligible sequence is
exactly `["B"]`. -/
theorem C6_enumerator (catalog : List (String × Nat)) (minGames : Nat) :
    (∀ p, p ∈ eligiblePlatforms catalog minGames ↔
      p ∈ catalog ∧ minGames ≤ p.2 ∧ p.1 ∉ SKIP_PLATFORMS) ∧
    List.Sorted rowLe (eligiblePlatforms catalog minGames) ∧
    (eligiblePlatforms [("A", 5), ("B", 40), ("C", 2)] 10).map Prod.fst =
      ["B"] := by
  refine ⟨?_, ?_, by decide⟩
  · intro p
    simp only [eligiblePlatforms, get_platforms, List.mem_filter,
      List.mem_insertionSort, decide_eq_true_eq, Bool.not_eq_true']
    rw [contains_false_iff]
    tauto
  · exact ((List.sorted_insertionSort rowLe catalog).filter _).filter _

/-! ## C7 -/

/-- C7 counterexample: the subject `"A"` is present in the catalog (with
weight 5) but fails the min-weight filter 10; the single-subject override
nonetheless fails with NotFound, contradicting the claim that NotFound
occurs if and only if the named subject is absent from the catalog
entirely. -/
theorem C7_counterexample :
    selectOverride [("A", 5)] 10 "A" = .notFound ∧
      ("A", 5) ∈ [("A", 5)] := by
  exact ⟨by decide, List.mem_singleton.mpr rfl⟩

/-- C7 (amended): the single-subject override accepts any named subject
present in the min-weight-filtered catalog, even if it is in the skip-set
(reported distinctly as force-included); it fails with NotFound if and only
if the named subject is absent from the min-weight-filtered catalog — in
particular a catalog subject below the min-weight threshold is also
rejected as NotFound, not force-included. -/
theorem C7_amended_override (catalog : List (String × Nat)) (minGames : Nat)
    (t : String) :
    (selectOverride catalog minGames t = .notFound ↔
      t ∉ (get_platforms catalog minGames).map Prod.fst) ∧
    (∀ e, selectOverride catalog minGames t = .normal e →
      e ∈ eligiblePlatforms catalog minGames ∧ e.1 = t) ∧
    (∀ e, selectOverride catalog minGames t = .forced e →
      e ∈ get_platforms catalog minGames ∧ e.1 = t ∧ t ∈ SKIP_PLATFORMS) := by
  rcases hl1 : (eligiblePlatforms catalog minGames).filter
      (fun p => p.1 = t) with _ | ⟨a, l1⟩
  · rcases hl2 : (get_platforms catalog minGames).filter
        (fun p => p.1 = t) with _ | ⟨b, l2⟩
    · have hsel : selectOverride catalog minGames t = .notFound := by
        simp [selectOverride, hl1, hl2]
      refine ⟨?_, ?_, ?_⟩
      · rw [hsel]
        simp only [true_iff]
        intro hmem
        rcases List.mem_map.mp hmem with ⟨e, he, hfst⟩
        have : e ∈ (get_platforms catalog minGames).filter
            (fun p => p.1 = t) := by
          rw [List.mem_filter]
          exact ⟨he, by simp [hfst]⟩
        rw [hl2] at this
        exact List.not_mem_nil e this
      · intro e he
        rw [hsel] at he
        cases he
      · intro e he
        rw [hsel] at he
        cases he
    · have hsel : selectOverride catalog minGames t = .forced b := by
        simp [selectOverride, hl1, hl2]
      have hb : b ∈ (get_platforms catalog minGames).filter
          (fun p => p.1 = t) := by
        rw [hl2]
        exact List.mem_cons_self b l2
      rw [List.mem_filter] at hb
      have hbt : b.1 = t := by simpa using hb.2
      refine ⟨?_, ?_, ?_⟩
      · rw [hsel]
        constructor
        · intro he
          cases he
        · intro hmem
          exact absurd (List.mem_map.mpr ⟨b, hb.1, hbt⟩) hmem
      · intro e he
        rw [hsel] at he
        cases he
      · intro e he
        rw [hsel] at he
        cases he
        refine ⟨hb.1, hbt, ?_⟩
        by_contra hskip
        have : b ∈ (eligiblePlatforms catalog minGames).filter
            (fun p => p.1 = t) := by
          rw [List.mem_filter]
          refine ⟨?_, by simp [hbt]⟩
          rw [eligiblePlatforms, List.mem_filter]
          refine ⟨hb.1, ?_⟩
          rw [hbt]
          simpa using hskip
        rw [hl1] at this
        exact List.not_mem_nil b this
  · have hsel : selectOverride catalog minGames t = .normal a := by
      simp [selectOverride, hl1]
    have ha : a ∈ (eligiblePlatforms catalog minGames).filter
        (fun p => p.1 = t) := by
      rw [hl1]
      exact List.mem_cons_self a l1
    rw [List.mem_filter] at ha
    have hat : a.1 = t := by simpa using ha.2
    refine ⟨?_, ?_, ?_⟩
    · rw [hsel]
      constructor
      · intro he
        cases he
      · intro hmem
        have hag : a ∈ get_platforms catalog minGames := by
          have := ha.1
          rw [eligiblePlatforms, List.mem_filter] at this
          exact this.1
        exact absurd (List.mem_map.mpr ⟨a, hag, hat⟩) hmem
    · intro e he
      rw [hsel] at he
      cases he
      exact ⟨ha.1, hat⟩
    · intro e he
      rw [hsel] at he
      cases he

/-- C7 witness: the amended override contract applied to a concrete
force-included skip-set subject. -/
theorem C7_amended_override_witness :
    ("Windows", 50) ∈ get_platforms [("Windows", 50)] 10 ∧
    ("Windows" : String) = "Windows" ∧ ("Windows" : String) ∈ SKIP_PLATFORMS :=
  (C7_amended_override [("Windows", 50)] 10 "Windows").2.2 ("Windows", 50)
    (by decide)

/-! ## More executor lemmas, for whole-run reasoning -/

/-- The reported success of a call is exactly whether the worker outcome
passes validation (in particular it is independent of the filesystem). -/
theorem proc_success_eq (p : String) (w : WorkerOutcome) (fs : FS) :
    (process_platform p w false fs).success = workerSucceeds w := by
  cases w with
  | timeout pw => rfl
  | raised pw => rfl
  | completed ec written =>
    cases written with
    | none => rfl
    | some c =>
      cases c with
      | corrupt => rfl
      | csv fns rows =>
        show (if _ then _ else if _ then _ else _ : ExecResult).success = _
        by_cases hall : ∀ x ∈ csvFields, x ∈ fns
        · have hcond : ¬ ∃ x ∈ csvFields, x ∉ fns := by
            push_neg
            exact hall
          by_cases hrows : rows = []
          · subst hrows
            have hv0 : validCSV (.csv fns []) = false := by
              rw [← Bool.not_eq_true, validCSV_csv_iff]
              rintro ⟨-, hr⟩
              exact hr rfl
            simp [hcond, workerSucceeds, hv0]
          · have : validCSV (.csv fns rows) = true :=
              (validCSV_csv_iff fns rows).mpr ⟨hall, hrows⟩
            simp [hcond, hrows, workerSucceeds, this]
        · have hcond : ∃ x ∈ csvFields, x ∉ fns := by
            push_neg at hall
            exact hall
          have : validCSV (.csv fns rows) = false := by
            rw [← Bool.not_eq_true, validCSV_csv_iff]
            rintro ⟨ha, -⟩
            exact hall ha
          simp [hcond, workerSucceeds, this]

/-- A call on a validation-passing worker outcome commits a valid artifact
at the canonical path. -/
theorem proc_success_reads (p : String) (w : WorkerOutcome) (fs : FS)
    (h : workerSucceeds w = true) :
    ∃ c, (process_platform p w false fs).fs.read (platform_to_filename p) =
      some c ∧ validCSV c = true := by
  cases w with
  | timeout pw => cases h
  | raised pw => cases h
  | completed ec written =>
    cases written with
    | none => cases h
    | some c =>
      cases c with
      | corrupt => cases h
      | csv fns rows =>
        have hv : validCSV (.csv fns rows) = true := h
        obtain ⟨hall, hrows⟩ := (validCSV_csv_iff fns rows).mp hv
        have hcond : ¬ ∃ x ∈ csvFields, x ∉ fns := by
          push_neg
          exact hall
        have hren : ((fs.remove (tmpName p)).write (tmpName p)
              (.csv fns rows)).rename (tmpName p) (platform_to_filename p) =
            (((fs.remove (tmpName p)).write (tmpName p)
              (.csv fns rows)).remove (tmpName p)).write
              (platform_to_filename p) (.csv fns rows) := by
          rw [FS.rename, read_write_self]
        have hres : (process_platform p (.completed ec
            (some (.csv fns rows))) false fs).fs =
            ((fs.remove (tmpName p)).write (tmpName p)
              (.csv fns rows)).rename (tmpName p) (platform_to_filename p) := by
          simp [process_platform, hcond, hrows]
        rw [hres, hren, read_write_self]
        exact ⟨.csv fns rows, rfl, hv⟩

/-- A call touches only its own temp path and its own canonical path. -/
theorem proc_read_other (p : String) (w : WorkerOutcome) (fs : FS)
    (k : String) (hk1 : k ≠ tmpName p) (hk2 : k ≠ platform_to_filename p) :
    (process_platform p w false fs).fs.read k = fs.read k := by
  cases hs : workerSucceeds w with
  | false =>
    have hfail : (process_platform p w false fs).success = false := by
      rw [proc_success_eq, hs]
    cases w with
    | timeout pw =>
      show ((workerWrite (fs.remove (tmpName p)) (tmpName p) pw).remove
        (tmpName p)).read k = _
      rw [read_remove_ne _ _ _ hk1, read_workerWrite_ne _ _ _ _ hk1,
        read_remove_ne _ _ _ hk1]
    | raised pw =>
      show ((workerWrite (fs.remove (tmpName p)) (tmpName p) pw).remove
        (tmpName p)).read k = _
      rw [read_remove_ne _ _ _ hk1, read_workerWrite_ne _ _ _ _ hk1,
        read_remove_ne _ _ _ hk1]
    | completed ec written =>
      cases written with
      | none => exact read_remove_ne _ _ _ hk1
      | some c =>
        cases c with
        | corrupt =>
          show (((fs.remove (tmpName p)).write (tmpName p) .corrupt).remove
            (tmpName p)).read k = _
          rw [read_remove_ne _ _ _ hk1, read_write_ne _ _ _ _ hk1,
            read_remove_ne _ _ _ hk1]
        | csv fns rows =>
          by_cases hall : ∀ x ∈ csvFields, x ∈ fns
          · have hcond : ¬ ∃ x ∈ csvFields, x ∉ fns := by
              push_neg
              exact hall
            by_cases hrows : rows = []
            · have hres : (process_platform p (.completed ec
                  (some (.csv fns rows))) false fs).fs =
                  ((fs.remove (tmpName p)).write (tmpName p)
                    (.csv fns rows)).remove (tmpName p) := by
                simp [process_platform, hcond, hrows]
              rw [hres, read_remove_ne _ _ _ hk1, read_write_ne _ _ _ _ hk1,
                read_remove_ne _ _ _ hk1]
            · exfalso
              have : validCSV (.csv fns rows) = true :=
                (validCSV_csv_iff fns rows).mpr ⟨hall, hrows⟩
              rw [show workerSucceeds (.completed ec (some (.csv fns rows)))
                  = validCSV (.csv fns rows) from rfl, this] at hs
              cases hs
          · have hcond : ∃ x ∈ csvFields, x ∉ fns := by
              push_neg at hall
              exact hall
            have hres : (process_platform p (.completed ec
                (some (.csv fns rows))) false fs).fs =
                ((fs.remove (tmpName p)).write (tmpName p)
                  (.csv fns rows)).remove (tmpName p) := by
              simp [process_platform, hcond]
            rw [hres, read_remove_ne _ _ _ hk1, read_write_ne _ _ _ _ hk1,
              read_remove_ne _ _ _ hk1]
  | true =>
    cases w with
    | timeout pw => cases hs
    | raised pw => cases hs
    | completed ec written =>
      cases written with
      | none => cases hs
      | some c =>
        cases c with
        | corrupt => cases hs
        | csv fns rows =>
          have hv : validCSV (.csv fns rows) = true := hs
          obtain ⟨hall, hrows⟩ := (validCSV_csv_iff fns rows).mp hv
          have hcond : ¬ ∃ x ∈ csvFields, x ∉ fns := by
            push_neg
            exact hall
          have hren : ((fs.remove (tmpName p)).write (tmpName p)
                (.csv fns rows)).rename (tmpName p) (platform_to_filename p) =
              (((fs.remove (tmpName p)).write (tmpName p)
                (.csv fns rows)).remove (tmpName p)).write
                (platform_to_filename p) (.csv fns rows) := by
            rw [FS.rename, read_write_self]
          have hres : (process_platform p (.completed ec
              (some (.csv fns rows))) false fs).fs =
              ((fs.remove (tmpName p)).write (tmpName p)
                (.csv fns rows)).rename (tmpName p)
                (platform_to_filename p) := by
            simp [process_platform, hcond, hrows]
          rw [hres, hren, read_write_ne _ _ _ _ hk2,
            read_remove_ne _ _ _ hk1, read_write_ne _ _ _ _ hk1,
            read_remove_ne _ _ _ hk1]

/-- Done subjects stay done across any single call. -/
theorem proc_done_mono (p q : String) (w : WorkerOutcome) (fs : FS)
    (h : is_done q fs = true) :
    is_done q ((process_platform p w false fs).fs) = true := by
  by_cases hq : platform_to_filename q = platform_to_filename p
  · cases hs : workerSucceeds w with
    | true =>
      obtain ⟨c, hc, -⟩ := proc_success_reads p w fs hs
      rw [is_done, FS.fileExists, hq, hc]
      rfl
    | false =>
      have hfail : (process_platform p w false fs).success = false := by
        rw [proc_success_eq, hs]
      rw [is_done, FS.fileExists, hq, (proc_fail_effects p w fs hfail).2]
      rw [is_done, FS.fileExists, hq] at h
      exact h
  · rw [is_done, FS.fileExists,
      proc_read_other p w fs _ (filename_ne_tmpName q p) hq]
    exact h

/-- `processAll` unfolded one step. -/
theorem processAll_cons (w : WorkerBehavior) (q : String) (qs : List String)
    (fs : FS) :
    processAll w (q :: qs) fs =
      processAll w qs ((process_platform q (w q) false fs).fs) := rfl

/-- A whole sequential pass touches only the processed platforms' temp and
canonical paths. -/
theorem processAll_read_other (w : WorkerBehavior) (names : List String)
    (fs : FS) (k : String)
    (h : ∀ p ∈ names, k ≠ tmpName p ∧ k ≠ platform_to_filename p) :
    (processAll w names fs).read k = fs.read k := by
  induction names generalizing fs with
  | nil => rfl
  | cons q qs ih =>
    rw [processAll_cons,
      ih ((process_platform q (w q) false fs).fs)
        (fun p hp => h p (List.mem_cons_of_mem q hp)),
      proc_read_other q (w q) fs k (h q (List.mem_cons_self q qs)).1
        (h q (List.mem_cons_self q qs)).2]

/-- The aggregator writes only the combined output file. -/
theorem combine_read_other (fs : FS) (k : String) (hk : k ≠ combinedName) :
    (combine_all_csvs fs).1.read k = fs.read k := by
  rw [combine_all_csvs]
  cases he : (collectRows (csvFiles fs)).1.isEmpty
  · simp only [he]
    exact read_write_ne _ _ _ _ hk
  · simp only [he]
    rfl

/-! ## C8 -/

/-- C8 counterexample: in single-subject override mode a done subject (its
artifact exists) is still dispatched, and a successful run overwrites the
existing artifact — so operator deletion is not the sole mechanism by which
a completed subject is processed again. -/
theorem C8_counterexample :
    is_done "B" [(platform_to_filename "B", sampleValid)] = true ∧
    remainingNames [("B", 40)] 10 (some "B")
      [(platform_to_filename "B", sampleValid)] = some ["B"] ∧
    (process_platform "B" (.completed 0 (some sampleValid2)) false
        [(platform_to_filename "B", sampleValid)]).fs.read
        (platform_to_filename "B") = some sampleValid2 ∧
    sampleValid2 ≠ sampleValid := by
  refine ⟨by decide, by decide, by decide, by decide⟩

/-- C8 (amended): in the normal (non-override) mode, a subject whose
artifact already exists is never dispatched, and a whole normal-mode run
(processing plus aggregation) leaves the done subject's artifact content
untouched, provided its filename key is not the combined-output name; the
single-subject override, by contrast, re-dispatches and can overwrite. -/
theorem C8_amended_done_preserved (w : WorkerBehavior)
    (catalog : List (String × Nat)) (minGames : Nat) (fs : FS) (d : String)
    (hd : is_done d fs = true)
    (hcomb : platform_to_filename d ≠ combinedName) :
    d ∉ (((eligiblePlatforms catalog minGames).map Prod.fst).filter
      (fun n => !is_done n fs)) ∧
    (runOnce w catalog minGames fs).read (platform_to_filename d) =
      fs.read (platform_to_filename d) := by
  constructor
  · intro hmem
    rw [List.mem_filter] at hmem
    rw [hd] at hmem
    exact absurd hmem.2 (by decide)
  · show (combine_all_csvs (processAll w _ fs)).1.read _ = _
    rw [combine_read_other _ _ hcomb]
    apply processAll_read_other
    intro p hp
    refine ⟨filename_ne_tmpName d p, ?_⟩
    intro heq
    rw [List.mem_filter] at hp
    have hpd : is_done p fs = true := by
      rw [is_done, FS.fileExists, ← heq]
      rw [is_done, FS.fileExists] at hd
      exact hd
    rw [hpd] at hp
    exact absurd hp.2 (by decide)

/-- C8 witness: amended normal-mode guarantee at a concrete store with one
done subject. -/
theorem C8_amended_done_preserved_witness :
    "B" ∉ (((eligiblePlatforms [("B", 40)] 10).map Prod.fst).filter
      (fun n => !is_done n [(platform_to_filename "B", sampleValid)])) ∧
    (runOnce (fun _ => .completed 0 (some sampleValid2)) [("B", 40)] 10
        [(platform_to_filename "B", sampleValid)]).read
        (platform_to_filename "B") =
      FS.read [(platform_to_filename "B", sampleValid)]
        (platform_to_filename "B") :=
  C8_amended_done_preserved (fun _ => .completed 0 (some sampleValid2))
    [("B", 40)] 10 [(platform_to_filename "B", sampleValid)] "B"
    (by decide) (by decide)

/-! ## Aggregation lemmas -/

theorem collectRows_cons (f : String × Content) (L : List (String × Content)) :
    collectRows (f :: L) =
      ((fileRows f).1 ++ (collectRows L).1,
       (fileRows f).2 + (collectRows L).2) := rfl

/-- The warning count is exactly the number of scanned non-combined files
whose parse raises. -/
theorem collectRows_warnings (L : List (String × Content)) :
    (collectRows L).2 = (L.filter corruptScanned).length := by
  induction L with
  | nil => rfl
  | cons f L ih =>
    rcases f with ⟨name, c⟩
    by_cases hn : name = combinedName
    · have h1 : fileRows (name, c) = ([], 0) := by
        simp [fileRows, hn]
      have h2 : corruptScanned (name, c) = false := by
        simp [corruptScanned, hn]
      simp [collectRows_cons, h1, h2, ih]
    · cases c with
      | corrupt =>
        have h1 : fileRows (name, .corrupt) = ([], 1) := by
          simp [fileRows, hn]
        have h2 : corruptScanned (name, .corrupt) = true := by
          simp [corruptScanned, hn]
        simp [collectRows_cons, h1, h2, ih, Nat.add_comm]
      | csv fns rows =>
        have h1 : fileRows (name, .csv fns rows) = (rows, 0) := by
          simp [fileRows, hn]
        have h2 : corruptScanned (name, .csv fns rows) = false := by
          simp [corruptScanned, hn]
        simp [collectRows_cons, h1, h2, ih]

/-- The collected rows are the concatenation, in scan order, of each scanned
file's readable rows (a raising file contributes nothing). -/
theorem collectRows_flatten (L : List (String × Content)) :
    (collectRows L).1 = (L.map (fun f => (fileRows f).1)).flatten := by
  induction L with
  | nil => rfl
  | cons f L ih => simp [collectRows_cons, ih]

/-- Looking a schema key up in a row built by mapping over the schema. -/
theorem lookup_map_pair (ks : List String) (v : String → String) (k : String)
    (h : k ∈ ks) :
    List.lookup k (ks.map (fun x => (x, v x))) = some (v k) := by
  induction ks with
  | nil => cases h
  | cons a ks ih =>
    by_cases hk : k = a
    · subst hk
      simp [List.lookup]
    · have : (k == a) = false := by simp [hk]
      rcases List.mem_cons.mp h with he | hm
      · exact absurd he hk
      · simp [List.lookup, this, ih hm]

/-! ## C5 -/

/-- C5: the aggregator scans the store's artifact files (the combined output
file contributes nothing), never aborts: each unreadable scanned file adds
exactly one warning, the collected record list is exactly the concatenation
of the readable scanned files' records, the combined dataset is rewritten
from those records alone — schema-normalized so that each output row has
exactly the canonical fields in canonical order, with missing fields filled
by the empty string and unknown fields dropped — and no other file in the
store is touched. -/
theorem C5_aggregator (fs : FS)
    (hne : (collectRows (csvFiles fs)).1 ≠ []) :
    (combine_all_csvs fs).2.2 = ((csvFiles fs).filter corruptScanned).length ∧
    (collectRows (csvFiles fs)).1 =
      ((csvFiles fs).map (fun f => (fileRows f).1)).flatten ∧
    (combine_all_csvs fs).1.read combinedName =
      some (.csv csvFields ((collectRows (csvFiles fs)).1.map cleanRow)) ∧
    (∀ k, k ≠ combinedName → (combine_all_csvs fs).1.read k = fs.read k) ∧
    (∀ row : Row, (cleanRow row).map Prod.fst = csvFields ∧
      ∀ k ∈ csvFields, List.lookup k (cleanRow row) =
        some ((List.lookup k row).getD "")) := by
  have hie : (collectRows (csvFiles fs)).1.isEmpty = false := by
    cases hL : (collectRows (csvFiles fs)).1 with
    | nil => exact absurd hL hne
    | cons a l => rfl
  refine ⟨?_, collectRows_flatten _, ?_, fun k hk => combine_read_other fs k hk, ?_⟩
  · rw [combine_all_csvs]
    simp only [hie]
    rw [if_neg (by simp)]
    exact collectRows_warnings _
  · rw [combine_all_csvs]
    simp only [hie]
    rw [if_neg (by simp)]
    exact read_write_self _ _ _
  · intro row
    constructor
    · rw [cleanRow, List.map_map]
      exact List.map_id csvFields
    · intro k hk
      exact lookup_map_pair csvFields _ k hk

/-- C5 witness: a concrete store with one readable artifact and one
unreadable file yields exactly one warning. -/
theorem C5_aggregator_witness :
    (combine_all_csvs
        [("bad.csv", Content.corrupt),
         ("b.csv", Content.csv ["platform", "x"]
           [[("platform", "B"), ("x", "1")]])]).2.2 =
      (((csvFiles
        [("bad.csv", Content.corrupt),
         ("b.csv", Content.csv ["platform", "x"]
           [[("platform", "B"), ("x", "1")]])]).filter corruptScanned)).length :=
  (C5_aggregator
    [("bad.csv", Content.corrupt),
     ("b.csv", Content.csv ["platform", "x"]
       [[("platform", "B"), ("x", "1")]])] (by decide)).1

/-! ## Combine idempotence -/

theorem collect_orderedInsert_zero (x : String × Content)
    (hx : fileRows x = ([], 0)) (L : List (String × Content)) :
    collectRows (List.orderedInsert nameLe x L) = collectRows L := by
  induction L with
  | nil => simp [List.orderedInsert, collectRows_cons, hx]
  | cons b L ih =>
    by_cases hrb : nameLe x b
    · rw [List.orderedInsert, if_pos hrb, collectRows_cons, hx]
      simp
    · rw [List.orderedInsert, if_neg hrb, collectRows_cons, ih,
        collectRows_cons]

theorem filter_orderedInsert_of_neg {α : Type} (r : α → α → Prop)
    [DecidableRel r] (p : α → Bool) (x : α) (hx : p x = false) :
    ∀ L : List α,
      (List.orderedInsert r x L).filter p = L.filter p := by
  intro L
  induction L with
  | nil => simp [List.orderedInsert, hx]
  | cons b L ih =>
    by_cases hrb : r x b
    · rw [List.orderedInsert, if_pos hrb]
      simp [List.filter_cons, hx]
    · rw [List.orderedInsert, if_neg hrb]
      by_cases hpb : p b = true
      · simp [List.filter_cons, hpb, ih]
      · simp only [Bool.not_eq_true] at hpb
        simp [List.filter_cons, hpb, ih]

theorem filter_orderedInsert_of_pos {α : Type} (r : α → α → Prop)
    [DecidableRel r] [IsTotal α r] [IsTrans α r] (p : α → Bool) (x : α)
    (hx : p x = true) :
    ∀ L : List α, List.Sorted r L →
      (List.orderedInsert r x L).filter p =
        List.orderedInsert r x (L.filter p) := by
  intro L
  induction L with
  | nil =>
    intro _
    simp [List.orderedInsert, hx]
  | cons b L ih =>
    intro hs
    rw [List.sorted_cons] at hs
    obtain ⟨hb, hsL⟩ := hs
    by_cases hrb : r x b
    · rw [List.orderedInsert, if_pos hrb]
      by_cases hpb : p b = true
      · rw [List.filter_cons_of_pos hx, List.filter_cons_of_pos hpb,
          List.orderedInsert, if_pos hrb]
      · have hpb' : p b = false := by
          simpa using hpb
        have hall : ∀ c ∈ L.filter p, r x c := fun c hc =>
          IsTrans.trans x b c hrb (hb c (List.mem_of_mem_filter hc))
        rw [List.filter_cons_of_pos hx,
          List.filter_cons_of_neg (by simp [hpb'])]
        cases hfl : L.filter p with
        | nil => simp [List.orderedInsert]
        | cons c cs =>
          have hrc : r x c := hall c (hfl ▸ List.mem_cons_self c cs)
          rw [List.orderedInsert, if_pos hrc]
    · have hbx : r b x := (IsTotal.total x b).resolve_left hrb
      rw [List.orderedInsert, if_neg hrb]
      by_cases hpb : p b = true
      · rw [List.filter_cons_of_pos hpb, List.filter_cons_of_pos hpb,
          ih hsL, List.orderedInsert, if_neg hrb]
      · have hpb' : p b = false := by
          simpa using hpb
        rw [List.filter_cons_of_neg (by simp [hpb']),
          List.filter_cons_of_neg (by simp [hpb']), ih hsL]

theorem insertionSort_filter {α : Type} (r : α → α → Prop) [DecidableRel r]
    [IsTotal α r] [IsTrans α r] (p : α → Bool) :
    ∀ L : List α,
      List.insertionSort r (L.filter p) = (List.insertionSort r L).filter p := by
  intro L
  induction L with
  | nil => rfl
  | cons a L ih =>
    by_cases hpa : p a = true
    · rw [List.filter_cons_of_pos hpa, List.insertionSort, List.insertionSort,
        ih, filter_orderedInsert_of_pos r p a hpa _
          (List.sorted_insertionSort r L)]
    · have hpa' : p a = false := by
        simpa using hpa
      rw [List.filter_cons_of_neg (by simp [hpa']), List.insertionSort, ih,
        filter_orderedInsert_of_neg r p a hpa']

/-- Dropping combined-output entries does not change collection: they
contribute no rows and no warnings. -/
theorem collect_filter_comb (L : List (String × Content)) :
    collectRows (L.filter (fun e => e.1 != combinedName)) = collectRows L := by
  induction L with
  | nil => rfl
  | cons a L ih =>
    by_cases ha : a.1 = combinedName
    · have h1 : fileRows a = ([], 0) := by
        rcases a with ⟨n, c⟩
        have ha' : n = combinedName := ha
        simp [fileRows, ha']
      rw [List.filter_cons_of_neg (by simp [ha]), ih, collectRows_cons, h1]
      simp
    · rw [List.filter_cons_of_pos (by simp [ha]), collectRows_cons,
        collectRows_cons, ih]

theorem globCsv_combined : globCsv combinedName = true := by decide

/-- Rewriting the combined output file does not change what a subsequent
scan collects. -/
theorem collect_csvFiles_write_comb (fs : FS) (c : Content) :
    collectRows (csvFiles (fs.write combinedName c)) =
      collectRows (csvFiles fs) := by
  have h1 : csvFiles (fs.write combinedName c) =
      List.orderedInsert nameLe (combinedName, c)
        (List.insertionSort nameLe
          ((fs.filter (fun e => e.1 != combinedName)).filter
            (fun e => globCsv e.1))) := by
    rw [csvFiles, FS.write, List.filter_cons_of_pos (by simp [globCsv_combined]),
      List.insertionSort]
  rw [h1, collect_orderedInsert_zero _ (by simp [fileRows])]
  have h2 : (fs.filter (fun e => e.1 != combinedName)).filter
      (fun e => globCsv e.1) =
      (fs.filter (fun e => globCsv e.1)).filter
        (fun e => e.1 != combinedName) := by
    rw [List.filter_filter, List.filter_filter]
    exact List.filter_congr (fun a _ => Bool.and_comm _ _)
  rw [h2, insertionSort_filter, collect_filter_comb, csvFiles]

theorem write_write_same (fs : FS) (k : String) (c : Content) :
    (fs.write k c).write k c = fs.write k c := by
  rw [FS.write, FS.write, List.filter_cons_of_neg (by simp),
    List.filter_filter]
  congr 1
  exact List.filter_congr (fun a _ => by simp [Bool.and_self])

/-- The aggregator is idempotent on the store. -/
theorem combine_idem (fs : FS) :
    (combine_all_csvs (combine_all_csvs fs).1).1 = (combine_all_csvs fs).1 := by
  cases he : (collectRows (csvFiles fs)).1.isEmpty with
  | true =>
    have h0 : (combine_all_csvs fs).1 = fs := by
      rw [combine_all_csvs]
      simp only [he]
      rw [if_pos trivial]
    rw [h0]
    exact h0
  | false =>
    have h0 : (combine_all_csvs fs).1 =
        fs.write combinedName
          (.csv csvFields ((collectRows (csvFiles fs)).1.map cleanRow)) := by
      rw [combine_all_csvs]
      simp only [he]
      rw [if_neg (by simp)]
    rw [h0]
    have h1 := collect_csvFiles_write_comb fs
      (.csv csvFields ((collectRows (csvFiles fs)).1.map cleanRow))
    rw [combine_all_csvs]
    rw [h1]
    simp only [he]
    rw [if_neg (by simp)]
    exact write_write_same _ _ _

/-! ## Run-level completion lemmas -/

/-- Aggregation never un-completes a subject. -/
theorem combine_done_mono (d : String) (fs : FS)
    (h : is_done d fs = true) :
    is_done d (combine_all_csvs fs).1 = true := by
  by_cases hd : platform_to_filename d = combinedName
  · rw [combine_all_csvs]
    cases he : (collectRows (csvFiles fs)).1.isEmpty
    · simp only [he]
      rw [if_neg (by simp), is_done, FS.fileExists, hd, read_write_self]
      rfl
    · simp only [he]
      rw [if_pos trivial]
      exact h
  · rw [is_done, FS.fileExists, combine_read_other fs _ hd]
    exact h

/-- After a sequential pass in which every processed worker outcome passes
validation, every processed subject — and every subject already done — is
done. -/
theorem processAll_done (w : WorkerBehavior) (names : List String) (fs : FS)
    (hsucc : ∀ p ∈ names, workerSucceeds (w p) = true) :
    ∀ d, (d ∈ names ∨ is_done d fs = true) →
      is_done d (processAll w names fs) = true := by
  induction names generalizing fs with
  | nil =>
    intro d hd
    rcases hd with h | h
    · cases h
    · exact h
  | cons q qs ih =>
    intro d hd
    rw [processAll_cons]
    refine ih ((process_platform q (w q) false fs).fs)
      (fun p hp => hsucc p (List.mem_cons_of_mem q hp)) d ?_
    rcases hd with h | h
    · rcases List.mem_cons.mp h with he | hm
      · subst he
        right
        obtain ⟨c, hc, -⟩ :=
          proc_success_reads d (w d) fs (hsucc d (List.mem_cons_self d qs))
        rw [is_done, FS.fileExists, hc]
        rfl
      · exact Or.inl hm
    · exact Or.inr (proc_done_mono q d (w q) fs h)

/-! ## C3 -/

/-- C3: in the normal mode a subject is dispatched if and only if no file
exists at its filename key (existence alone decides done-ness at resume
time); and when the first run's workers all pass validation, a second run
with no artifact deletions dispatches zero subjects and leaves the store
byte-identical. -/
theorem C3_idempotent_resumption (w : WorkerBehavior)
    (catalog : List (String × Nat)) (minGames : Nat) (fs : FS)
    (hsucc : ∀ p ∈ (((eligiblePlatforms catalog minGames).map Prod.fst).filter
      (fun n => !is_done n fs)), workerSucceeds (w p) = true) :
    (∀ n, n ∈ (((eligiblePlatforms catalog minGames).map Prod.fst).filter
        (fun n => !is_done n fs)) ↔
      n ∈ (eligiblePlatforms catalog minGames).map Prod.fst ∧
        fs.read (platform_to_filename n) = none) ∧
    (((eligiblePlatforms catalog minGames).map Prod.fst).filter
      (fun n => !is_done n (runOnce w catalog minGames fs))) = [] ∧
    runOnce w catalog minGames (runOnce w catalog minGames fs) =
      runOnce w catalog minGames fs := by
  have hmem : ∀ n, n ∈ (((eligiblePlatforms catalog minGames).map
      Prod.fst).filter (fun n => !is_done n fs)) ↔
      n ∈ (eligiblePlatforms catalog minGames).map Prod.fst ∧
        fs.read (platform_to_filename n) = none := by
    intro n
    rw [List.mem_filter]
    constructor
    · rintro ⟨hm, hb⟩
      refine ⟨hm, ?_⟩
      rw [Bool.not_eq_true', is_done, FS.fileExists] at hb
      cases hr : fs.read (platform_to_filename n) with
      | none => rfl
      | some c =>
        rw [hr] at hb
        cases hb
    · rintro ⟨hm, hr⟩
      refine ⟨hm, ?_⟩
      rw [Bool.not_eq_true', is_done, FS.fileExists, hr]
      rfl
  have hdone : ∀ n ∈ (eligiblePlatforms catalog minGames).map Prod.fst,
      is_done n (runOnce w catalog minGames fs) = true := by
    intro n hn
    show is_done n (combine_all_csvs (processAll w _ fs)).1 = true
    apply combine_done_mono
    apply processAll_done w _ fs hsucc
    cases hd : is_done n fs with
    | true => exact Or.inr rfl
    | false =>
      left
      rw [List.mem_filter]
      exact ⟨hn, by rw [hd]; rfl⟩
  have hrem2 : (((eligiblePlatforms catalog minGames).map Prod.fst).filter
      (fun n => !is_done n (runOnce w catalog minGames fs))) = [] := by
    rw [List.filter_eq_nil_iff]
    intro n hn
    rw [hdone n hn]
    decide
  refine ⟨hmem, hrem2, ?_⟩
  show (combine_all_csvs (processAll w
    (((eligiblePlatforms catalog minGames).map Prod.fst).filter
      (fun n => !is_done n (runOnce w catalog minGames fs)))
    (runOnce w catalog minGames fs))).1 = _
  rw [hrem2]
  show (combine_all_csvs (combine_all_csvs (processAll w _ fs)).1).1 = _
  exact combine_idem _

/-- C3 witness: a concrete catalog and empty store, a worker that always
produces a valid artifact; the second run is the first run. -/
theorem C3_idempotent_resumption_witness :
    runOnce (fun _ => .completed 0 (some sampleValid)) [("B", 40)] 10
        (runOnce (fun _ => .completed 0 (some sampleValid)) [("B", 40)] 10
          []) =
      runOnce (fun _ => .completed 0 (some sampleValid)) [("B", 40)] 10 [] :=
  (C3_idempotent_resumption (fun _ => .completed 0 (some sampleValid))
    [("B", 40)] 10 [] (by decide)).2.2

/-! ## Scheduler / pool lemmas -/

/-- The pool invariant: at most `k` tasks in flight, the dispatched prefix
plus the queue is the enumerator's sequence, and while work remains the pool
is saturated. -/
def poolInv (k : Nat) (names : List String) (s : PoolState) : Prop :=
  s.inFlight.length ≤ k ∧
  s.dispatched ++ s.queue = names ∧
  (s.queue ≠ [] → s.inFlight.length = k)

theorem initPool_inv (k : Nat) (names : List String) :
    poolInv k names (initPool k names) := by
  refine ⟨?_, List.take_append_drop k names, ?_⟩
  · rw [initPool, List.length_take]
    exact min_le_left k names.length
  · intro hq
    rw [initPool, List.length_take]
    rw [initPool] at hq
    have hlen : k < names.length := by
      by_contra hle
      push_neg at hle
      exact hq (List.drop_eq_nil_of_le hle)
    omega

theorem poolStep_inv (k : Nat) (names : List String) (s s' : PoolState)
    (hinv : poolInv k names s) (hstep : poolStep s s') :
    poolInv k names s' := by
  obtain ⟨done, remain, hne, hperm, hs'⟩ := hstep
  obtain ⟨hlen, happ, hsat⟩ := hinv
  have hflight : s.inFlight.length = done.length + remain.length := by
    rw [hperm.length_eq, List.length_append]
  have hd1 : 1 ≤ done.length := by
    cases done with
    | nil => exact absurd rfl hne
    | cons a l => simp
  subst hs'
  refine ⟨?_, ?_, ?_⟩
  · simp only [List.length_append, List.length_take]
    omega
  · simp only []
    rw [List.append_assoc, List.take_append_drop]
    exact happ
  · intro hq
    simp only [] at hq ⊢
    have hql : done.length < s.queue.length := by
      by_contra hle
      push_neg at hle
      exact hq (List.drop_eq_nil_of_le hle)
    have hqne : s.queue ≠ [] := by
      intro h0
      rw [h0] at hql
      simp at hql
    have hk := hsat hqne
    rw [List.length_append, List.length_take]
    omega

theorem poolReachable_inv (k : Nat) (names : List String) (s : PoolState)
    (h : poolReachable k names s) : poolInv k names s := by
  induction h with
  | refl => exact initPool_inv k names
  | tail hr hstep ih => exact poolStep_inv k names _ _ ih hstep

/-! ## C10 -/

/-- C10: from any reachable state of the refill loop, at most `k` worker
invocations are in flight; the dispatched subjects are exactly a prefix of
the enumerator's stable sequence (dispatch in stable order as slots free);
and one step after any completion, if subjects remain pending, at least one
new subject has been dispatched (refill on completion, not batch-wise
waiting) with the bound still respected. -/
theorem C10_scheduler (k : Nat) (names : List String) (s s' : PoolState)
    (h : poolReachable k names s) :
    s.inFlight.length ≤ k ∧
    s.dispatched = names.take s.dispatched.length ∧
    (poolStep s s' → s.queue ≠ [] →
      s.dispatched.length < s'.dispatched.length ∧
      s'.inFlight.length ≤ k) := by
  obtain ⟨hlen, happ, hsat⟩ := poolReachable_inv k names s h
  refine ⟨hlen, ?_, ?_⟩
  · rw [← happ, List.take_left]
  · intro hstep hq
    constructor
    · obtain ⟨done, remain, hne, hperm, hs'⟩ := hstep
      subst hs'
      simp only [List.length_append, List.length_take]
      have hd1 : 1 ≤ done.length := by
        cases done with
        | nil => exact absurd rfl hne
        | cons a l => simp
      have hq1 : 1 ≤ s.queue.length := by
        cases hq0 : s.queue with
        | nil => exact absurd hq0 hq
        | cons a l => simp
      omega
    · exact (poolStep_inv k names s s'
        (poolReachable_inv k names s h) hstep).1

/-- C10 witness: the scheduler contract at a concrete reachable state (the
initial batch of two workers over three subjects), with a concrete target
state for the step clause. -/
theorem C10_scheduler_witness :
    (initPool 2 ["a", "b", "c"]).inFlight.length ≤ 2 ∧
    (initPool 2 ["a", "b", "c"]).dispatched =
      (["a", "b", "c"]).take (initPool 2 ["a", "b", "c"]).dispatched.length ∧
    (poolStep (initPool 2 ["a", "b", "c"]) ⟨[], ["b", "a"], ["a", "b", "a"]⟩ →
      (initPool 2 ["a", "b", "c"]).queue ≠ [] →
      (initPool 2 ["a", "b", "c"]).dispatched.length <
        (PoolState.mk [] ["b", "a"] ["a", "b", "a"]).dispatched.length ∧
      (PoolState.mk [] ["b", "a"] ["a", "b", "a"]).inFlight.length ≤ 2) :=
  C10_scheduler 2 ["a", "b", "c"] (initPool 2 ["a", "b", "c"])
    ⟨[], ["b", "a"], ["a", "b", "a"]⟩ Relation.ReflTransGen.refl

end RomSources
